import Mathlib

/-! Verification of the oiler/converters CSV parsing core

Shallow embedding of the `parseCSV` routine found (in two textually
identical copies) in `src/csv_to_html/script.js` and
`src/csv_to_wpblock/script.js`, together with proofs of the specified
properties.

The JavaScript scans the input left to right with one character of
lookahead, keeping a current field, a current row and an inside-quotes
flag.  We embed the loop as a structurally recursive function over the
character list; the lookahead (`csvText[i + 1]`) and the in-loop index
skips (`i++`) become pattern matches on the tail of the list.
JavaScript truthiness of `currentField` (a string) is emptiness of the
field, and `String.prototype.trim` is modelled by `trimL` over the
ECMAScript WhiteSpace and LineTerminator character set.
-/

namespace Converters

/-- The character set removed by JavaScript `String.prototype.trim`:
ECMAScript WhiteSpace (TAB, VT, FF, SP, NBSP, ZWNBSP and the Unicode
Space_Separator category) together with LineTerminator (LF, CR, LS, PS). -/
def jsWhitespace (c : Char) : Bool :=
  c == '\t' || c.toNat == 0xA || c.toNat == 0xB || c.toNat == 0xC ||
  c.toNat == 0xD || c == ' ' || c.toNat == 0xA0 || c.toNat == 0x1680 ||
  (decide (0x2000 ≤ c.toNat) && decide (c.toNat ≤ 0x200A)) ||
  c.toNat == 0x2028 || c.toNat == 0x2029 || c.toNat == 0x202F ||
  c.toNat == 0x205F || c.toNat == 0x3000 || c.toNat == 0xFEFF

/-- JavaScript `String.prototype.trim` on a character list: drop leading and
trailing JavaScript whitespace. -/
def trimL (l : List Char) : List Char :=
  ((l.dropWhile jsWhitespace).reverse.dropWhile jsWhitespace).reverse

/-- JavaScript `String.prototype.trim` on strings. -/
def jsTrim (s : String) : String := ⟨trimL s.data⟩

/-- The finalized field `currentField.trim()` as pushed into the current row
(`currentRow.push(currentField.trim())`). -/
def finalizeField (field : List Char) : String := ⟨trimL field⟩

namespace CsvToHtml

/-- The character loop of `parseCSV` in `src/csv_to_html/script.js`
(lines 18-55).  Arguments: remaining input, `currentField`, `currentRow`,
`insideQuotes`.  Returns the rows pushed from this point on, including the
end-of-input finalization of lines 52-55. -/
def parseLoop : List Char → List Char → List String → Bool → List (List String)
  | [], field, row, _ =>
      if field = [] ∧ row = [] then [] else [row ++ [finalizeField field]]
  | '"' :: '"' :: rest, field, row, true =>
      parseLoop rest (field ++ ['"']) row true
  | '"' :: rest, field, row, iq =>
      parseLoop rest field row (!iq)
  | '\r' :: '\n' :: rest, field, row, false =>
      if field = [] ∧ row = [] then parseLoop rest field row false
      else (row ++ [finalizeField field]) :: parseLoop rest [] [] false
  | c :: rest, field, row, iq =>
      if c = ',' ∧ iq = false then
        parseLoop rest [] (row ++ [finalizeField field]) iq
      else if (c = '\n' ∨ c = '\r') ∧ iq = false then
        if field = [] ∧ row = [] then parseLoop rest field row iq
        else (row ++ [finalizeField field]) :: parseLoop rest [] [] iq
      else
        parseLoop rest (field ++ [c]) row iq

/-- Embedding of `parseCSV` from `src/csv_to_html/script.js`: run the loop on the input
with empty initial state, then
`rows.filter(row => row.some(cell => cell !== ''))` (line 57). -/
def parseCSV (s : String) : List (List String) :=
  (parseLoop s.data [] [] false).filter (fun row => row.any (fun cell => cell != ""))

end CsvToHtml

namespace CsvToWpblock

/-- The character loop of `parseCSV` in `src/csv_to_wpblock/script.js`
(lines 18-55), embedded independently from that file. -/
def parseLoop : List Char → List Char → List String → Bool → List (List String)
  | [], field, row, _ =>
      if field = [] ∧ row = [] then [] else [row ++ [finalizeField field]]
  | '"' :: '"' :: rest, field, row, true =>
      parseLoop rest (field ++ ['"']) row true
  | '"' :: rest, field, row, iq =>
      parseLoop rest field row (!iq)
  | '\r' :: '\n' :: rest, field, row, false =>
      if field = [] ∧ row = [] then parseLoop rest field row false
      else (row ++ [finalizeField field]) :: parseLoop rest [] [] false
  | c :: rest, field, row, iq =>
      if c = ',' ∧ iq = false then
        parseLoop rest [] (row ++ [finalizeField field]) iq
      else if (c = '\n' ∨ c = '\r') ∧ iq = false then
        if field = [] ∧ row = [] then parseLoop rest field row iq
        else (row ++ [finalizeField field]) :: parseLoop rest [] [] iq
      else
        parseLoop rest (field ++ [c]) row iq

/-- Embedding of `parseCSV` from `src/csv_to_wpblock/script.js` (lines 12-58). -/
def parseCSV (s : String) : List (List String) :=
  (parseLoop s.data [] [] false).filter (fun row => row.any (fun cell => cell != ""))

end CsvToWpblock

/-- Holds when the character list contains no two adjacent quote
characters (the trigger of the escaped-quote rule). -/
def noDoubleQuotePair : List Char → Bool
  | [] => true
  | [_] => true
  | a :: b :: rest => !(a == '"' && b == '"') && noDoubleQuotePair (b :: rest)

/-! Helper lemmas about JavaScript trimming -/

theorem dropWhile_dropWhile {α : Type} (p : α → Bool) (l : List α) :
    (l.dropWhile p).dropWhile p = l.dropWhile p := by
  induction l with
  | nil => simp
  | cons a t ih => by_cases h : p a <;> simp [List.dropWhile_cons, h, ih]

theorem dropWhile_eq_self_of_head {α : Type} (p : α → Bool) (l : List α)
    (h : ∀ a, l.head? = some a → p a = false) : l.dropWhile p = l := by
  cases l with
  | nil => simp
  | cons a t => simp [List.dropWhile_cons, h a rfl]

theorem head?_dropWhile_false {α : Type} (p : α → Bool) (l : List α) (a : α)
    (h : (l.dropWhile p).head? = some a) : p a = false := by
  have hm := List.head?_dropWhile_not p l
  rw [h] at hm
  exact hm

theorem getLast?_dropWhile {α : Type} (p : α → Bool) (l : List α)
    (h : l.dropWhile p ≠ []) : (l.dropWhile p).getLast? = l.getLast? := by
  induction l with
  | nil => simp at h
  | cons a t ih =>
    by_cases hp : p a
    · rw [List.dropWhile_cons_of_pos hp] at h ⊢
      rw [ih h]
      cases t with
      | nil => simp at h
      | cons b t2 => rw [List.getLast?_cons_cons]
    · rw [List.dropWhile_cons_of_neg hp]

theorem dropWhile_eq_nil_of_all {α : Type} (p : α → Bool) (l : List α)
    (h : ∀ a ∈ l, p a = true) : l.dropWhile p = [] := by
  induction l with
  | nil => simp
  | cons a t ih =>
    simp only [List.dropWhile_cons, h a (by simp), if_pos]
    exact ih fun b hb => h b (by simp [hb])

theorem trimL_idem (l : List Char) : trimL (trimL l) = trimL l := by
  by_cases hm : (l.dropWhile jsWhitespace).reverse.dropWhile jsWhitespace = []
  · simp [trimL, hm]
  · have hhead : ∀ a,
        (((l.dropWhile jsWhitespace).reverse.dropWhile jsWhitespace).reverse).head? =
          some a → jsWhitespace a = false := by
      intro a ha
      rw [List.head?_reverse, getLast?_dropWhile _ _ hm, List.getLast?_reverse] at ha
      exact head?_dropWhile_false jsWhitespace l a ha
    unfold trimL
    rw [dropWhile_eq_self_of_head _ _ hhead, List.reverse_reverse, dropWhile_dropWhile]

theorem trimL_nil_of_all (l : List Char) (h : ∀ a ∈ l, jsWhitespace a = true) :
    trimL l = [] := by
  unfold trimL
  rw [dropWhile_eq_nil_of_all _ _ h]
  simp

theorem mem_of_mem_trimL {a : Char} {l : List Char} (h : a ∈ trimL l) : a ∈ l := by
  unfold trimL at h
  rw [List.mem_reverse] at h
  have h2 := (List.dropWhile_sublist _).subset h
  rw [List.mem_reverse] at h2
  exact (List.dropWhile_sublist _).subset h2

theorem jsTrim_finalizeField (l : List Char) :
    jsTrim (finalizeField l) = finalizeField l := by
  show (⟨trimL (trimL l)⟩ : String) = ⟨trimL l⟩
  rw [trimL_idem]

/-! Helper lemmas about the parsing loop -/

theorem parseLoop_other (c : Char) (rest field : List Char) (row : List String) (iq : Bool)
    (hq : c ≠ '"') (hc : ¬(c = ',' ∧ iq = false))
    (ht : ¬((c = '\n' ∨ c = '\r') ∧ iq = false)) :
    CsvToHtml.parseLoop (c :: rest) field row iq =
      CsvToHtml.parseLoop rest (field ++ [c]) row iq := by
  rw [CsvToHtml.parseLoop.eq_def]
  split <;>
    first
      | (simp_all; done)
      | (simp_all
         split_ifs
         all_goals simp_all)

/-- Every cell of every row emitted by the loop is the trim of some field,
provided the cells already in the current row are. -/
theorem parseLoop_cells_shape (cs field : List Char) (row : List String) (iq : Bool) :
    (∀ cell ∈ row, ∃ l, cell = finalizeField l) →
    ∀ r ∈ CsvToHtml.parseLoop cs field row iq, ∀ cell ∈ r, ∃ l, cell = finalizeField l := by
  induction cs, field, row, iq using CsvToHtml.parseLoop.induct with
  | case1 field row iq h =>
    intro _ r hr
    simp [CsvToHtml.parseLoop, h] at hr
  | case2 field row iq h =>
    intro hrow r hr
    simp only [CsvToHtml.parseLoop, if_neg h, List.mem_singleton] at hr
    subst hr
    intro cell hc
    rcases List.mem_append.1 hc with hmem | hmem
    · exact hrow cell hmem
    · exact ⟨field, List.mem_singleton.1 hmem⟩
  | case3 rest field row ih =>
    intro hrow r hr
    simp only [CsvToHtml.parseLoop] at hr
    exact ih hrow r hr
  | case4 rest field row iq hne ih =>
    intro hrow r hr
    simp only [CsvToHtml.parseLoop, hne] at hr
    exact ih hrow r hr
  | case5 rest field row h ih =>
    intro hrow r hr
    simp only [CsvToHtml.parseLoop, if_pos h] at hr
    exact ih hrow r hr
  | case6 rest field row h ih =>
    intro hrow r hr
    simp only [CsvToHtml.parseLoop, if_neg h, List.mem_cons] at hr
    rcases hr with rfl | hr
    · intro cell hc
      rcases List.mem_append.1 hc with hmem | hmem
      · exact hrow cell hmem
      · exact ⟨field, List.mem_singleton.1 hmem⟩
    · exact ih (by intro cell hc; exact absurd hc (List.not_mem_nil cell)) r hr
  | case7 c rest field row iq h1 h2 h3 hcond ih =>
    obtain ⟨rfl, rfl⟩ := hcond
    intro hrow r hr
    simp [CsvToHtml.parseLoop] at hr
    refine ih ?_ r hr
    intro cell hc
    rcases List.mem_append.1 hc with hmem | hmem
    · exact hrow cell hmem
    · exact ⟨field, List.mem_singleton.1 hmem⟩
  | case8 c rest field row iq h1 h2 h3 h4 h5 h6 ih =>
    obtain ⟨hor, rfl⟩ := h5
    obtain ⟨rfl, rfl⟩ := h6
    have h4n : c ≠ ',' := fun hch => h4 ⟨hch, rfl⟩
    intro hrow r hr
    simp only [CsvToHtml.parseLoop, h1, h2, h3, h4n, hor] at hr
    exact ih hrow r hr
  | case9 c rest field row iq h1 h2 h3 h4 h5 h6 ih =>
    obtain ⟨hor, rfl⟩ := h5
    have h4n : c ≠ ',' := fun hch => h4 ⟨hch, rfl⟩
    intro hrow r hr
    simp only [CsvToHtml.parseLoop, h1, h2, h3, h4n, hor, if_neg h6] at hr
    rcases List.mem_cons.1 hr with rfl | hr
    · intro cell hc
      rcases List.mem_append.1 hc with hmem | hmem
      · exact hrow cell hmem
      · exact ⟨field, List.mem_singleton.1 hmem⟩
    · exact ih (by intro cell hc; exact absurd hc (List.not_mem_nil cell)) r hr
  | case10 c rest field row iq h1 h2 h3 h4 h5 ih =>
    intro hrow r hr
    rw [parseLoop_other c rest field row iq (fun hch => h2 hch) h4 h5] at hr
    exact ih hrow r hr

/-- Every cell of a parsed table is a fixed point of JavaScript trimming. -/
theorem parseCSV_cells_trim_fixed (s : String) (row : List String)
    (hr : row ∈ CsvToHtml.parseCSV s) (cell : String) (hc : cell ∈ row) :
    jsTrim cell = cell := by
  have hmem : row ∈ CsvToHtml.parseLoop s.data [] [] false :=
    List.mem_of_mem_filter hr
  obtain ⟨l, rfl⟩ :=
    parseLoop_cells_shape s.data [] [] false
      (by intro cell hc; exact absurd hc (List.not_mem_nil cell)) row hmem cell hc
  exact jsTrim_finalizeField l

/-- On all-whitespace input (with an all-whitespace current field and a
current row of empty cells, outside quote-mode), every cell of every row the
loop emits is the empty string. -/
theorem parseLoop_all_ws (cs field : List Char) (row : List String) (iq : Bool) :
    iq = false →
    (∀ ch ∈ cs, jsWhitespace ch = true) →
    (∀ ch ∈ field, jsWhitespace ch = true) →
    (∀ cell ∈ row, cell = "") →
    ∀ r ∈ CsvToHtml.parseLoop cs field row iq, ∀ cell ∈ r, cell = "" := by
  have hfin : ∀ field : List Char, (∀ ch ∈ field, jsWhitespace ch = true) →
      finalizeField field = "" := by
    intro field hf
    show (⟨trimL field⟩ : String) = ""
    rw [trimL_nil_of_all field hf]
  induction cs, field, row, iq using CsvToHtml.parseLoop.induct with
  | case1 field row iq h =>
    intro _ _ _ _ r hr
    simp [CsvToHtml.parseLoop, h] at hr
  | case2 field row iq h =>
    intro _ _ hf hrow r hr
    simp only [CsvToHtml.parseLoop, if_neg h, List.mem_singleton] at hr
    subst hr
    intro cell hc
    rcases List.mem_append.1 hc with hmem | hmem
    · exact hrow cell hmem
    · rw [List.mem_singleton.1 hmem]
      exact hfin field hf
  | case3 rest field row ih =>
    intro hiq
    exact absurd hiq (by simp)
  | case4 rest field row iq hne ih =>
    intro _ hcs
    exact absurd (hcs '"' (List.mem_cons_self _ _)) (by decide)
  | case5 rest field row h ih =>
    intro _ hcs hf hrow r hr
    simp only [CsvToHtml.parseLoop, if_pos h] at hr
    refine ih rfl ?_ hf hrow r hr
    intro ch hch
    exact hcs ch (by simp [hch])
  | case6 rest field row h ih =>
    intro _ hcs hf hrow r hr
    simp only [CsvToHtml.parseLoop, if_neg h, List.mem_cons] at hr
    rcases hr with rfl | hr
    · intro cell hc
      rcases List.mem_append.1 hc with hmem | hmem
      · exact hrow cell hmem
      · rw [List.mem_singleton.1 hmem]
        exact hfin field hf
    · refine ih rfl (fun ch hch => hcs ch (by simp [hch]))
        (fun ch hch => absurd hch (List.not_mem_nil ch))
        (fun cell hc => absurd hc (List.not_mem_nil cell)) r hr
  | case7 c rest field row iq h1 h2 h3 hcond ih =>
    obtain ⟨rfl, rfl⟩ := hcond
    intro _ hcs
    exact absurd (hcs ',' (List.mem_cons_self _ _)) (by decide)
  | case8 c rest field row iq h1 h2 h3 h4 h5 h6 ih =>
    obtain ⟨hor, rfl⟩ := h5
    obtain ⟨rfl, rfl⟩ := h6
    have h4n : c ≠ ',' := fun hch => h4 ⟨hch, rfl⟩
    intro _ hcs hf hrow r hr
    simp only [CsvToHtml.parseLoop, h1, h2, h3, h4n, hor] at hr
    exact ih rfl (fun ch hch => hcs ch (by simp [hch])) hf hrow r hr
  | case9 c rest field row iq h1 h2 h3 h4 h5 h6 ih =>
    obtain ⟨hor, rfl⟩ := h5
    have h4n : c ≠ ',' := fun hch => h4 ⟨hch, rfl⟩
    intro _ hcs hf hrow r hr
    simp only [CsvToHtml.parseLoop, h1, h2, h3, h4n, hor, if_neg h6] at hr
    rcases List.mem_cons.1 hr with rfl | hr
    · intro cell hc
      rcases List.mem_append.1 hc with hmem | hmem
      · exact hrow cell hmem
      · rw [List.mem_singleton.1 hmem]
        exact hfin field hf
    · refine ih rfl (fun ch hch => hcs ch (by simp [hch]))
        (fun ch hch => absurd hch (List.not_mem_nil ch))
        (fun cell hc => absurd hc (List.not_mem_nil cell)) r hr
  | case10 c rest field row iq h1 h2 h3 h4 h5 ih =>
    intro hiq hcs hf hrow r hr
    subst hiq
    rw [parseLoop_other c rest field row false (fun hch => h2 hch) h4 h5] at hr
    refine ih rfl (fun ch hch => hcs ch (by simp [hch])) ?_ hrow r hr
    intro ch hch
    rcases List.mem_append.1 hch with hmem | hmem
    · exact hf ch hmem
    · rw [List.mem_singleton.1 hmem]
      exact hcs c (List.mem_cons_self _ _)

/-- Whitespace-only input parses to the empty table. -/
theorem parseCSV_ws_nil (s : String) (h : ∀ ch ∈ s.data, jsWhitespace ch = true) :
    CsvToHtml.parseCSV s = [] := by
  unfold CsvToHtml.parseCSV
  rw [List.filter_eq_nil_iff]
  intro r hr
  have hcells := parseLoop_all_ws s.data [] [] false rfl h
    (fun ch hch => absurd hch (List.not_mem_nil ch))
    (fun cell hc => absurd hc (List.not_mem_nil cell)) r hr
  simp only [List.any_eq_true, not_exists]
  rintro cell ⟨hc, hne⟩
  rw [hcells cell hc] at hne
  simp at hne

theorem noDoubleQuotePair_tail {a : Char} {l : List Char}
    (h : noDoubleQuotePair (a :: l) = true) : noDoubleQuotePair l = true := by
  cases l with
  | nil => rfl
  | cons b t =>
    simp only [noDoubleQuotePair, Bool.and_eq_true] at h
    exact h.2

/-- If the remaining input has no adjacent pair of quote characters, and the
accumulated state holds no quote characters, then no emitted cell contains a
quote character. -/
theorem parseLoop_no_quote (cs field : List Char) (row : List String) (iq : Bool) :
    noDoubleQuotePair cs = true →
    (∀ ch ∈ field, ch ≠ '"') →
    (∀ cell ∈ row, ∀ ch ∈ cell.data, ch ≠ '"') →
    ∀ r ∈ CsvToHtml.parseLoop cs field row iq, ∀ cell ∈ r, ∀ ch ∈ cell.data, ch ≠ '"' := by
  have hfin : ∀ field : List Char, (∀ ch ∈ field, ch ≠ '"') →
      ∀ ch ∈ (finalizeField field).data, ch ≠ '"' := by
    intro field hf ch hch
    exact hf ch (mem_of_mem_trimL hch)
  induction cs, field, row, iq using CsvToHtml.parseLoop.induct with
  | case1 field row iq h =>
    intro _ _ _ r hr
    simp [CsvToHtml.parseLoop, h] at hr
  | case2 field row iq h =>
    intro _ hf hrow r hr
    simp only [CsvToHtml.parseLoop, if_neg h, List.mem_singleton] at hr
    subst hr
    intro cell hc
    rcases List.mem_append.1 hc with hmem | hmem
    · exact hrow cell hmem
    · rw [List.mem_singleton.1 hmem]
      exact hfin field hf
  | case3 rest field row ih =>
    intro hqq
    exact absurd hqq (by simp [noDoubleQuotePair])
  | case4 rest field row iq hne ih =>
    intro hqq hf hrow r hr
    simp only [CsvToHtml.parseLoop, hne] at hr
    exact ih (noDoubleQuotePair_tail hqq) hf hrow r hr
  | case5 rest field row h ih =>
    intro hqq hf hrow r hr
    simp only [CsvToHtml.parseLoop, if_pos h] at hr
    exact ih (noDoubleQuotePair_tail (noDoubleQuotePair_tail hqq)) hf hrow r hr
  | case6 rest field row h ih =>
    intro hqq hf hrow r hr
    simp only [CsvToHtml.parseLoop, if_neg h, List.mem_cons] at hr
    rcases hr with rfl | hr
    · intro cell hc
      rcases List.mem_append.1 hc with hmem | hmem
      · exact hrow cell hmem
      · rw [List.mem_singleton.1 hmem]
        exact hfin field hf
    · exact ih (noDoubleQuotePair_tail (noDoubleQuotePair_tail hqq))
        (fun ch hch => absurd hch (List.not_mem_nil ch))
        (fun cell hc => absurd hc (List.not_mem_nil cell)) r hr
  | case7 c rest field row iq h1 h2 h3 hcond ih =>
    obtain ⟨rfl, rfl⟩ := hcond
    intro hqq hf hrow r hr
    simp only [CsvToHtml.parseLoop, h1, h2, h3] at hr
    refine ih (noDoubleQuotePair_tail hqq) (fun ch hch => absurd hch (List.not_mem_nil ch))
      ?_ r hr
    intro cell hc
    rcases List.mem_append.1 hc with hmem | hmem
    · exact hrow cell hmem
    · rw [List.mem_singleton.1 hmem]
      exact hfin field hf
  | case8 c rest field row iq h1 h2 h3 h4 h5 h6 ih =>
    obtain ⟨hor, rfl⟩ := h5
    obtain ⟨rfl, rfl⟩ := h6
    have h4n : c ≠ ',' := fun hch => h4 ⟨hch, rfl⟩
    intro hqq hf hrow r hr
    simp only [CsvToHtml.parseLoop, h1, h2, h3, h4n, hor] at hr
    exact ih (noDoubleQuotePair_tail hqq) hf hrow r hr
  | case9 c rest field row iq h1 h2 h3 h4 h5 h6 ih =>
    obtain ⟨hor, rfl⟩ := h5
    have h4n : c ≠ ',' := fun hch => h4 ⟨hch, rfl⟩
    intro hqq hf hrow r hr
    simp only [CsvToHtml.parseLoop, h1, h2, h3, h4n, hor, if_neg h6] at hr
    rcases List.mem_cons.1 hr with rfl | hr
    · intro cell hc
      rcases List.mem_append.1 hc with hmem | hmem
      · exact hrow cell hmem
      · rw [List.mem_singleton.1 hmem]
        exact hfin field hf
    · exact ih (noDoubleQuotePair_tail hqq)
        (fun ch hch => absurd hch (List.not_mem_nil ch))
        (fun cell hc => absurd hc (List.not_mem_nil cell)) r hr
  | case10 c rest field row iq h1 h2 h3 h4 h5 ih =>
    intro hqq hf hrow r hr
    rw [parseLoop_other c rest field row iq (fun hch => h2 hch) h4 h5] at hr
    refine ih (noDoubleQuotePair_tail hqq) ?_ hrow r hr
    intro ch hch
    rcases List.mem_append.1 hch with hmem | hmem
    · exact hf ch hmem
    · rw [List.mem_singleton.1 hmem]
      exact fun hch2 => h2 hch2

/-- A run of characters that are neither delimiter, quote nor terminator is
consumed entirely into the current field. -/
theorem parseLoop_ordinary (l : List Char) (field : List Char) (row : List String)
    (h : ∀ ch ∈ l, ch ≠ ',' ∧ ch ≠ '"' ∧ ch ≠ '\n' ∧ ch ≠ '\r') :
    CsvToHtml.parseLoop l field row false =
      CsvToHtml.parseLoop [] (field ++ l) row false := by
  induction l generalizing field with
  | nil => rw [List.append_nil]
  | cons c rest ih =>
    obtain ⟨h1, h2, h3, h4⟩ := h c (List.mem_cons_self c rest)
    rw [parseLoop_other c rest field row false h2 (by simp [h1]) (by simp [h3, h4])]
    rw [ih (field ++ [c]) (fun ch hch => h ch (List.mem_cons_of_mem c hch))]
    simp

theorem parseLoopW_other (c : Char) (rest field : List Char) (row : List String) (iq : Bool)
    (hq : c ≠ '"') (hc : ¬(c = ',' ∧ iq = false))
    (ht : ¬((c = '\n' ∨ c = '\r') ∧ iq = false)) :
    CsvToWpblock.parseLoop (c :: rest) field row iq =
      CsvToWpblock.parseLoop rest (field ++ [c]) row iq := by
  rw [CsvToWpblock.parseLoop.eq_def]
  split <;>
    first
      | (simp_all; done)
      | (simp_all
         split_ifs
         all_goals simp_all)

/-- The two textually identical loops compute the same function. -/
theorem parseLoop_html_eq_wpblock (cs field : List Char) (row : List String) (iq : Bool) :
    CsvToHtml.parseLoop cs field row iq = CsvToWpblock.parseLoop cs field row iq := by
  induction cs, field, row, iq using CsvToHtml.parseLoop.induct with
  | case1 field row iq h =>
    simp [CsvToHtml.parseLoop, CsvToWpblock.parseLoop, h]
  | case2 field row iq h =>
    simp only [CsvToHtml.parseLoop, CsvToWpblock.parseLoop, if_neg h]
  | case3 rest field row ih =>
    simp only [CsvToHtml.parseLoop, CsvToWpblock.parseLoop]
    exact ih
  | case4 rest field row iq hne ih =>
    simp only [CsvToHtml.parseLoop, CsvToWpblock.parseLoop, hne]
    exact ih
  | case5 rest field row h ih =>
    simp only [CsvToHtml.parseLoop, CsvToWpblock.parseLoop, if_pos h]
    exact ih
  | case6 rest field row h ih =>
    simp only [CsvToHtml.parseLoop, CsvToWpblock.parseLoop, if_neg h]
    rw [ih]
  | case7 c rest field row iq h1 h2 h3 hcond ih =>
    obtain ⟨rfl, rfl⟩ := hcond
    simp only [CsvToHtml.parseLoop, CsvToWpblock.parseLoop, h1, h2, h3]
    exact ih
  | case8 c rest field row iq h1 h2 h3 h4 h5 h6 ih =>
    obtain ⟨hor, rfl⟩ := h5
    obtain ⟨rfl, rfl⟩ := h6
    have h4n : c ≠ ',' := fun hch => h4 ⟨hch, rfl⟩
    simp only [CsvToHtml.parseLoop, CsvToWpblock.parseLoop, h1, h2, h3, h4n, hor]
    exact ih
  | case9 c rest field row iq h1 h2 h3 h4 h5 h6 ih =>
    obtain ⟨hor, rfl⟩ := h5
    have h4n : c ≠ ',' := fun hch => h4 ⟨hch, rfl⟩
    simp [CsvToHtml.parseLoop, CsvToWpblock.parseLoop, h1, h2, h3, h4n, hor, h6, ih]
  | case10 c rest field row iq h1 h2 h3 h4 h5 ih =>
    have hq : c ≠ '"' := fun hch => h2 hch
    rw [parseLoop_other c rest field row iq hq h4 h5, ih,
      parseLoopW_other c rest field row iq hq h4 h5]

/-! The claims -/

/-- Claim C1: for every input string, `parse` terminates and returns a Table
without raising any error — the embedded parse function is total over all
strings (totality is witnessed by the function being defined, by structural
recursion, on every input). -/
theorem claim_C1_parse_total (s : String) :
    ∃ t : List (List String), CsvToHtml.parseCSV s = t :=
  ⟨_, rfl⟩

/-- Claim C2: a delimiter or line terminator encountered while the quote-mode
flag is set is appended to the current field as ordinary content rather than
ending the field or the row; in particular the quoted-delimiter example and a
terminator inside quotes yielding a multi-line field in a single cell. -/
theorem claim_C2_quote_mode_content :
    (∀ (rest field : List Char) (row : List String),
      CsvToHtml.parseLoop (',' :: rest) field row true =
        CsvToHtml.parseLoop rest (field ++ [',']) row true) ∧
    (∀ (rest field : List Char) (row : List String),
      CsvToHtml.parseLoop ('\n' :: rest) field row true =
        CsvToHtml.parseLoop rest (field ++ ['\n']) row true) ∧
    (∀ (rest field : List Char) (row : List String),
      CsvToHtml.parseLoop ('\r' :: rest) field row true =
        CsvToHtml.parseLoop rest (field ++ ['\r']) row true) ∧
    CsvToHtml.parseCSV "\"a,b\",c\n1,2" = [["a,b", "c"], ["1", "2"]] ∧
    CsvToHtml.parseCSV "\"a\nb\",c" = [["a\nb", "c"]] := by
  refine ⟨?_, ?_, ?_, by decide, by decide⟩ <;>
    intro rest field row <;>
    exact parseLoop_other _ rest field row true (by decide) (by simp) (by simp)

/-- Claim C3: a quote read inside quote-mode and immediately followed by
another quote emits exactly one literal quote and consumes both characters;
any other quote only toggles quote-mode and is never copied, so (absent
adjacent quote pairs in the input) no output cell ever contains a quote
character; and the escaped-quote example. -/
theorem claim_C3_escaped_quote :
    (∀ (rest field : List Char) (row : List String),
      CsvToHtml.parseLoop ('"' :: '"' :: rest) field row true =
        CsvToHtml.parseLoop rest (field ++ ['"']) row true) ∧
    (∀ (rest : List Char) (field : List Char) (row : List String) (iq : Bool),
      ¬(iq = true ∧ rest.head? = some '"') →
      CsvToHtml.parseLoop ('"' :: rest) field row iq =
        CsvToHtml.parseLoop rest field row (!iq)) ∧
    (∀ s : String, noDoubleQuotePair s.data = true →
      ∀ row ∈ CsvToHtml.parseCSV s, ∀ cell ∈ row, ∀ ch ∈ cell.data, ch ≠ '"') ∧
    CsvToHtml.parseCSV "\"a\"\"b\",c" = [["a\"b", "c"]] := by
  refine ⟨fun rest field row => rfl, ?_, ?_, by decide⟩
  · intro rest field row iq h
    cases rest with
    | nil => cases iq <;> rfl
    | cons c rest2 =>
      by_cases hc : c = '"'
      · subst hc
        cases iq with
        | false => rfl
        | true => exact absurd ⟨rfl, rfl⟩ h
      · have hne : ∀ rest1, (c :: rest2) = '"' :: rest1 → iq = true → False :=
          fun rest1 hrest _ => hc (List.cons_eq_cons.mp hrest).1
        simp only [CsvToHtml.parseLoop, hne]
  · intro s hqq row hrow cell hcell
    exact parseLoop_no_quote s.data [] [] false hqq (by simp) (by simp)
      row (List.mem_of_mem_filter hrow) cell hcell

/-- Witness for C3: the toggle rule applied at a concrete state where the next
character is not a quote, and the no-quote-in-output invariant applied to a
concrete parse. -/
theorem claim_C3_escaped_quote_witness :
    CsvToHtml.parseLoop ['"', 'a'] [] [] false =
      CsvToHtml.parseLoop ['a'] [] [] (!false) ∧
    'a' ≠ '"' :=
  ⟨claim_C3_escaped_quote.2.1 ['a'] [] [] false (by decide),
   claim_C3_escaped_quote.2.2.1 "a" (by decide) ["a"] (by decide) "a" (by decide)
     'a' (by decide)⟩

/-- Claim C4: a carriage return outside quote-mode immediately followed by a
line feed is one single row terminator (the line feed is consumed and does not
act as a second terminator), so mixed line endings introduce no blank rows. -/
theorem claim_C4_crlf_single_terminator :
    (∀ (rest field : List Char) (row : List String),
      CsvToHtml.parseLoop ('\r' :: '\n' :: rest) field row false =
        CsvToHtml.parseLoop ('\n' :: rest) field row false) ∧
    CsvToHtml.parseCSV "a,b\r\nc,d\ne,f" = [["a", "b"], ["c", "d"], ["e", "f"]] :=
  ⟨fun rest field row => rfl, by decide⟩

/-- Claim C5: the Table returned by parse never contains a row in which every
cell is the empty string, and the all-blank middle row of the example input is
dropped. -/
theorem claim_C5_no_all_blank_rows :
    (∀ s : String, ∀ row ∈ CsvToHtml.parseCSV s, ∃ cell ∈ row, cell ≠ "") ∧
    CsvToHtml.parseCSV "a,b\n,\nc,d" = [["a", "b"], ["c", "d"]] := by
  refine ⟨?_, by decide⟩
  intro s row hrow
  have hp := (List.mem_filter.1 hrow).2
  simp only [List.any_eq_true, bne_iff_ne] at hp
  obtain ⟨cell, hc, hne⟩ := hp
  exact ⟨cell, hc, hne⟩

/-- Witness for C5: applied to a concrete parsed row. -/
theorem claim_C5_no_all_blank_rows_witness :
    ∃ cell ∈ ["a"], cell ≠ "" :=
  claim_C5_no_all_blank_rows.1 "a" ["a"] (by decide)

/-- Claim C6: every cell in the output of parse is trimmed of leading and
trailing whitespace at field-finalization time (so every output cell is a
fixed point of trimming), including content that was inside quotes, while
interior whitespace is preserved. -/
theorem claim_C6_cells_trimmed :
    (∀ s : String, ∀ row ∈ CsvToHtml.parseCSV s, ∀ cell ∈ row, jsTrim cell = cell) ∧
    CsvToHtml.parseCSV "  x  , y " = [["x", "y"]] ∧
    CsvToHtml.parseCSV "\" a \",b" = [["a", "b"]] ∧
    CsvToHtml.parseCSV "a  b" = [["a  b"]] :=
  ⟨fun s row hrow cell hc => parseCSV_cells_trim_fixed s row hrow cell hc,
   by decide, by decide, by decide⟩

/-- Witness for C6: applied to a concrete parsed cell. -/
theorem claim_C6_cells_trimmed_witness : jsTrim "a" = "a" :=
  claim_C6_cells_trimmed.1 "a" ["a"] (by decide) "a" (by decide)

/-- Counterexample to C7 as stated: the cell `"a,b"` occurs in the output of
`parse` on the quoted input, is non-empty, yet re-parsing it does not yield
that identical cell — the embedded comma is treated as a delimiter again. -/
theorem claim_C7_counterexample :
    ["a,b", "c"] ∈ CsvToHtml.parseCSV "\"a,b\",c" ∧
    "a,b" ∈ (["a,b", "c"] : List String) ∧
    "a,b" ≠ "" ∧
    CsvToHtml.parseCSV "a,b" ≠ [["a,b"]] := by decide

/-- Claim C7 (amended): re-parsing is idempotent on those output cells that
contain no delimiter, quote or terminator character: for every input t and
every such non-empty cell c occurring in parse(t), parse(c) equals [[c]],
because trimming is not applied twice. -/
theorem claim_C7_reparse_idempotent (t : String) (row : List String) (cell : String)
    (hrow : row ∈ CsvToHtml.parseCSV t) (hc : cell ∈ row) (hne : cell ≠ "")
    (hplain : ∀ ch ∈ cell.data, ch ≠ ',' ∧ ch ≠ '"' ∧ ch ≠ '\n' ∧ ch ≠ '\r') :
    CsvToHtml.parseCSV cell = [[cell]] := by
  have htrim : jsTrim cell = cell := parseCSV_cells_trim_fixed t row hrow cell hc
  have hdata : cell.data ≠ [] := by
    intro hnil
    apply hne
    have hmk : cell = ⟨cell.data⟩ := rfl
    rw [hmk, hnil]
  unfold CsvToHtml.parseCSV
  rw [parseLoop_ordinary cell.data [] [] hplain]
  simp only [List.nil_append]
  have hloop : CsvToHtml.parseLoop [] cell.data [] false = [[finalizeField cell.data]] := by
    simp [CsvToHtml.parseLoop, hdata]
  rw [hloop]
  have hfin : finalizeField cell.data = cell := htrim
  rw [hfin]
  simp [hne]

/-- Witness for C7 (amended): a plain cell from a concrete parse re-parses to
itself. -/
theorem claim_C7_reparse_idempotent_witness : CsvToHtml.parseCSV "a" = [["a"]] :=
  claim_C7_reparse_idempotent "a,b" ["a", "b"] "a" (by decide) (by decide) (by decide)
    (by decide)

/-- Claim C8: parse of the empty string, or of any input containing only
whitespace characters (including newlines), is the empty Table. -/
theorem claim_C8_whitespace_empty :
    CsvToHtml.parseCSV "" = [] ∧
    CsvToHtml.parseCSV "   \n\n  " = [] ∧
    (∀ s : String, (∀ ch ∈ s.data, jsWhitespace ch = true) →
      CsvToHtml.parseCSV s = []) :=
  ⟨by decide, by decide, fun s h => parseCSV_ws_nil s h⟩

/-- Witness for C8: the whitespace-only case applied to a concrete string. -/
theorem claim_C8_whitespace_empty_witness : CsvToHtml.parseCSV " \t\n" = [] :=
  claim_C8_whitespace_empty.2.2 " \t\n" (by decide)

/-- Claim C9: at end of input — whatever the quote-mode flag is, in
particular when an unmatched quote left it open — if the current field or
current row is non-empty, the last field is finalized (trimmed, appended to
the row, row appended to the table) without requiring a trailing terminator,
and no error is raised. -/
theorem claim_C9_eof_finalize :
    (∀ (field : List Char) (row : List String) (iq : Bool), ¬(field = [] ∧ row = []) →
      CsvToHtml.parseLoop [] field row iq = [row ++ [finalizeField field]]) ∧
    CsvToHtml.parseCSV "\"abc" = [["abc"]] ∧
    CsvToHtml.parseCSV "x,\"y" = [["x", "y"]] := by
  refine ⟨?_, by decide, by decide⟩
  intro field row iq h
  simp [CsvToHtml.parseLoop, h]

/-- Witness for C9: end-of-input finalization at a concrete state with the
quote-mode flag still open. -/
theorem claim_C9_eof_finalize_witness :
    CsvToHtml.parseLoop [] ['a'] [] true = [([] : List String) ++ [finalizeField ['a']]] :=
  claim_C9_eof_finalize.1 ['a'] [] true (by decide)

/-- Claim C10: the two parser implementations in `src/csv_to_html/script.js`
and `src/csv_to_wpblock/script.js` are extensionally equal: on every input
string both return the same Table. -/
theorem claim_C10_parsers_equal (s : String) :
    CsvToHtml.parseCSV s = CsvToWpblock.parseCSV s := by
  unfold CsvToHtml.parseCSV CsvToWpblock.parseCSV
  rw [parseLoop_html_eq_wpblock]

end Converters
